import Mathlib

/-
Verification of the NeuroAudioWizard audio-synthesis core
(src/server/audio_processor.py) against its specification.

The Python module is shallowly embedded here:
  * Python floats are modelled as `PyFloat`: an exact rational for finite
    doubles, plus positive infinity, negative infinity and NaN.  The code
    under verification only multiplies by the constant `1e12` (which is an
    exactly representable double) and compares/clamps, so no rounding step
    is modelled for the finite case.
  * pydub `AudioSegment` data is modelled as a `List ℤ` of signed 16-bit
    samples (mono, 44100 Hz, sample_width 2, as produced by
    `AudioSegment.silent` and `Sine(...).to_audio_segment`).
  * The external sine synthesizer (`pydub.generators.Sine`) produces
    transcendental sample values; it is kept abstract as a parameter of
    type `Synth`.  Everything proved below holds for every synthesizer.
  * Fallible operations return `Except AudioError`; the Python
    `try/except Exception: continue` in the batch loop appears as the
    error-absorbing step function `processItem`.
-/

set_option autoImplicit false

namespace NeuroAudio

/-- Model of a Python float value: a finite double (kept as an exact
rational), one of the two infinities, or NaN. -/
inductive PyFloat where
  | finite : ℚ → PyFloat
  | inf : PyFloat
  | neginf : PyFloat
  | nan : PyFloat
deriving DecidableEq

/-- Python strict comparison `a < b` on floats (IEEE-754 semantics: every
comparison involving NaN is false). -/
def PyFloat.ltb : PyFloat → PyFloat → Bool
  | .nan, _ => false
  | _, .nan => false
  | .neginf, .neginf => false
  | .neginf, _ => true
  | _, .neginf => false
  | .inf, _ => false
  | .finite _, .inf => true
  | .finite p, .finite q => decide (p < q)

/-- Python comparison `a <= b` on floats (IEEE-754 semantics: every
comparison involving NaN is false). -/
def PyFloat.leb : PyFloat → PyFloat → Bool
  | .nan, _ => false
  | _, .nan => false
  | .neginf, _ => true
  | _, .neginf => false
  | _, .inf => true
  | .inf, _ => false
  | .finite p, .finite q => decide (p ≤ q)

/-- The NaN test `np.isnan` used by the mapper. -/
def PyFloat.isNanb : PyFloat → Bool
  | .nan => true
  | _ => false

/-- IEEE-754 float multiplication on the model (sign-correct handling of
the infinities; NaN is absorbing; `inf * 0` is NaN).  The mapper only
multiplies by the positive finite constant `1e12`. -/
def PyFloat.mul : PyFloat → PyFloat → PyFloat
  | .nan, _ => .nan
  | _, .nan => .nan
  | .finite p, .finite q => .finite (p * q)
  | .inf, .inf => .inf
  | .inf, .neginf => .neginf
  | .neginf, .inf => .neginf
  | .neginf, .neginf => .inf
  | .inf, .finite q => if 0 < q then .inf else if q < 0 then .neginf else .nan
  | .finite p, .inf => if 0 < p then .inf else if p < 0 then .neginf else .nan
  | .neginf, .finite q => if 0 < q then .neginf else if q < 0 then .inf else .nan
  | .finite p, .neginf => if 0 < p then .neginf else if p < 0 then .inf else .nan

/-- A Python value handed to `thz_to_hz`: either a numeric value
(`isinstance(thz, (int, float))` holds; ints are subsumed by finite
rationals) or any non-numeric object. -/
inductive PyVal where
  | num : PyFloat → PyVal
  | nonNum : PyVal
deriving DecidableEq

/-- Error taxonomy of the module.  `invalidFrequency` is the
`ValueError` raised by `thz_to_hz`; `synthesisFailure` is any exception
escaping tone generation; `emptyAudio` is the `ValueError` raised by
`save_audio` on a zero-length segment; `encodeFailure` is an exception
raised by the mp3 encoder; `exportVerification` is the `RuntimeError`
raised by the post-write check. -/
inductive AudioError where
  | invalidFrequency
  | synthesisFailure
  | emptyAudio
  | encodeFailure
  | exportVerification
deriving DecidableEq

/-- Config.TOTAL_DURATION_SECONDS from audio_processor.py. -/
def TOTAL_DURATION_SECONDS : ℕ := 30

/-- Config.SAMPLE_RATE from audio_processor.py. -/
def SAMPLE_RATE : ℕ := 44100

/-- Config.MIN_FREQUENCY_HZ from audio_processor.py. -/
def MIN_FREQUENCY_HZ : ℚ := 18000

/-- Config.MAX_FREQUENCY_HZ from audio_processor.py. -/
def MAX_FREQUENCY_HZ : ℚ := 22000

/-- The Python double literal `1e12`, which is exactly 10^12 (exactly
representable in binary64). -/
def e12 : ℚ := 10 ^ 12

/-- NeuroAudioGenerator.thz_to_hz: raises ValueError when the input is
not an int/float or is NaN, otherwise returns `thz * 1e12`. -/
def thz_to_hz : PyVal → Except AudioError PyFloat
  | .nonNum => .error .invalidFrequency
  | .num f => if f.isNanb then .error .invalidFrequency else .ok (f.mul (.finite e12))

/-- Python two-argument `max(a, b)`: the second argument replaces the
first exactly when `b > a` (so `max(nan, x) = nan`). -/
def pyMax (a b : PyFloat) : PyFloat := if a.ltb b then b else a

/-- Python two-argument `min(a, b)`: the second argument replaces the
first exactly when `b < a` (so `min(nan, x) = nan`). -/
def pyMin (a b : PyFloat) : PyFloat := if b.ltb a then b else a

/-- The clamp on line 44 of audio_processor.py:
`min(max(frequency_hz, Config.MIN_FREQUENCY_HZ), Config.MAX_FREQUENCY_HZ)`. -/
def clampFreq (frequency_hz : PyFloat) : PyFloat :=
  pyMin (pyMax frequency_hz (.finite MIN_FREQUENCY_HZ)) (.finite MAX_FREQUENCY_HZ)

/-- The external pydub sine synthesizer
`Sine(freq, sample_rate=44100).to_audio_segment(duration_ms, volume=-10)`,
kept abstract: it maps the (already clamped) frequency to a sample buffer
or fails.  Its sample values are transcendental and are not needed for any
claim below. -/
abbrev Synth := PyFloat → Except AudioError (List ℤ)

/-- NeuroAudioGenerator.generate_tone: clamps the frequency into the
audible processing band, then invokes the sine synthesizer; any exception
is logged and re-raised unchanged. -/
def generate_tone (synth : Synth) (frequency_hz : PyFloat) : Except AudioError (List ℤ) :=
  synth (clampFreq frequency_hz)

/-- Saturation of a sample sum to the signed 16-bit range, as performed by
CPython `audioop.add` with sample width 2 (samples are truncated to
[-0x8000, 0x7fff] on overflow). -/
def clamp16 (x : ℤ) : ℤ := min (max x (-32768)) 32767

/-- pydub AudioSegment.overlay (position 0, no looping), used on line 105
of audio_processor.py: the overlapping prefix is combined with
`audioop.add` (16-bit saturating sample-wise addition) and the tail of the
master past the tone length is kept unchanged; the result always has the
master segment's length. -/
def overlay (master tone : List ℤ) : List ℤ :=
  (List.zipWith (fun a b => clamp16 (a + b)) master tone) ++ master.drop tone.length

/-- Modelled from the spec: the overlay the specification describes —
sample-wise addition in higher-precision intermediate storage with no
clipping or saturation of partial sums (clipping deferred to export).
Used only to compare against the `overlay` the code actually performs. -/
def overlaySpec (master tone : List ℤ) : List ℤ :=
  (List.zipWith (fun a b => a + b) master tone) ++ master.drop tone.length

/-- Success test on an `Except` result. -/
def isOk {ε α : Type} : Except ε α → Bool
  | .ok _ => true
  | .error _ => false

/-- One iteration of the loop body of
NeuroAudioGenerator.add_frequencies (lines 101-112): map THz to Hz,
synthesize the tone, overlay it onto the accumulator; the surrounding
`except Exception: continue` turns any failure into "leave the
accumulator unchanged and move on". -/
def processItem (synth : Synth) (buf : List ℤ) (v : PyVal) : List ℤ :=
  match thz_to_hz v >>= generate_tone synth with
  | .ok tone => overlay buf tone
  | .error _ => buf

/-- NeuroAudioGenerator.add_frequencies: fold the per-item step over the
input list.  Total by construction, exactly as the Python loop is total
thanks to its per-item exception handler. -/
def add_frequencies (synth : Synth) (buf : List ℤ) (frequencies_thz : List PyVal) : List ℤ :=
  frequencies_thz.foldl (processItem synth) buf

/-- The MasterBuffer created in NeuroAudioGenerator.__init__:
`AudioSegment.silent(duration=30*1000, frame_rate=44100)`, i.e.
`int(44100 * 30000 / 1000) = 30 * 44100` zero samples. -/
def masterInit : List ℤ := List.replicate (TOTAL_DURATION_SECONDS * SAMPLE_RATE) 0

/-- pydub `len(audio_segment)`: the duration in whole milliseconds,
`round(1000 * frames / 44100)` with Python banker's rounding.  A tie would
need `20 * n = 441 * (2k+1)`, which forces `441 ∣ n` and then an even
number equal to an odd one, so no tie ever occurs and round-half-up
(implemented below with integer arithmetic) agrees with Python exactly. -/
def pydubLenMs (sampleCount : ℕ) : ℕ := (1000 * sampleCount + 22050) / 44100

/-- Outcome of the external encoder and filesystem, abstracted: whether
`AudioSegment.export` raises, whether the output file exists afterwards,
and its size in bytes (`os.path.getsize`). -/
structure ExportEnv where
  encodeRaises : Bool
  fileWritten : Bool
  fileSize : ℕ
deriving DecidableEq

/-- NeuroAudioGenerator.save_audio (lines 114-142): raise ValueError when
the segment length (in ms) is zero, run the encoder (propagating its
exceptions), raise RuntimeError when the output path does not exist
afterwards, otherwise succeed, returning the logged byte size.  Note the
code checks only `os.path.exists(output_path)` — it never inspects the
size. -/
def save_audio (samples : List ℤ) (env : ExportEnv) : Except AudioError ℕ :=
  if pydubLenMs samples.length = 0 then .error .emptyAudio
  else if env.encodeRaises then .error .encodeFailure
  else if env.fileWritten then .ok env.fileSize
  else .error .exportVerification

/-- numpy pairwise minimum as used by `np.min` reduction: NaN propagates,
otherwise the smaller value is kept. -/
def npMinimum (a b : PyFloat) : PyFloat :=
  if a.isNanb || b.isNanb then .nan else if b.ltb a then b else a

/-- numpy pairwise maximum as used by `np.max` reduction: NaN propagates,
otherwise the larger value is kept. -/
def npMaximum (a b : PyFloat) : PyFloat :=
  if a.isNanb || b.isNanb then .nan else if a.ltb b then b else a

/-- The summary record built by `main` (lines 192-200): frequency count
and min/max statistics. -/
structure SynthesisResult where
  frequency_count : ℕ
  frequency_min : PyFloat
  frequency_max : PyFloat
deriving DecidableEq

/-- The statistics part of `main`: `len(frequencies)`,
`np.min(frequencies)` and `np.max(frequencies)` computed on the loaded
(original, unclamped) list; `np.min`/`np.max` raise on an empty array,
hence the `Option`. -/
def mainStats : List PyFloat → Option SynthesisResult
  | [] => none
  | x :: xs =>
    some { frequency_count := (x :: xs).length
           frequency_min := xs.foldl npMinimum x
           frequency_max := xs.foldl npMaximum x }

/-- The pipeline of `main` relevant to the claims: run the batch over the
pre-allocated master, and build the statistics from the original loaded
list (independent of what the batch skipped). -/
def mainRun (synth : Synth) (freqs : List PyFloat) : List ℤ × Option SynthesisResult :=
  (add_frequencies synth masterInit (freqs.map PyVal.num), mainStats freqs)

/-- A trivial concrete synthesizer, used to instantiate witnesses. -/
def synthZero : Synth := fun _ => .ok []

/-- Below the configured band the clamp returns the lower bound. -/
theorem clamp_below {q : ℚ} (h : q < MIN_FREQUENCY_HZ) :
    clampFreq (.finite q) = .finite MIN_FREQUENCY_HZ := by
  have e1 : (PyFloat.finite q).ltb (.finite MIN_FREQUENCY_HZ) = true := decide_eq_true h
  have e2 : (PyFloat.finite MAX_FREQUENCY_HZ).ltb (.finite MIN_FREQUENCY_HZ) = false := by decide
  simp [clampFreq, pyMax, pyMin, e1, e2]

/-- Above the configured band the clamp returns the upper bound. -/
theorem clamp_above {q : ℚ} (h : MAX_FREQUENCY_HZ < q) :
    clampFreq (.finite q) = .finite MAX_FREQUENCY_HZ := by
  have hband : MIN_FREQUENCY_HZ < MAX_FREQUENCY_HZ := by
    norm_num [MIN_FREQUENCY_HZ, MAX_FREQUENCY_HZ]
  have h1 : ¬ (q < MIN_FREQUENCY_HZ) := not_lt.2 (le_of_lt (lt_trans hband h))
  have e1 : (PyFloat.finite q).ltb (.finite MIN_FREQUENCY_HZ) = false := decide_eq_false h1
  have e2 : (PyFloat.finite MAX_FREQUENCY_HZ).ltb (.finite q) = true := decide_eq_true h
  simp [clampFreq, pyMax, pyMin, e1, e2]

/-- Inside the configured band the clamp is the identity. -/
theorem clamp_within {q : ℚ} (h1 : MIN_FREQUENCY_HZ ≤ q) (h2 : q ≤ MAX_FREQUENCY_HZ) :
    clampFreq (.finite q) = .finite q := by
  have e1 : (PyFloat.finite q).ltb (.finite MIN_FREQUENCY_HZ) = false := decide_eq_false (not_lt.2 h1)
  have e2 : (PyFloat.finite MAX_FREQUENCY_HZ).ltb (.finite q) = false := decide_eq_false (not_lt.2 h2)
  simp [clampFreq, pyMax, pyMin, e1, e2]

/-- C1: for every finite non-NaN numeric input thz, thz_to_hz returns
exactly thz * 1e12 (it is a pure function of its argument), and for a NaN
or non-numeric input it fails with the InvalidFrequency error; for every
other input (including the infinities) it succeeds, so it raises in no
other case. -/
theorem C1_thz_to_hz_exact_and_raises_only_on_nan_or_nonnumeric :
    (∀ q : ℚ, thz_to_hz (.num (.finite q)) = .ok (.finite (q * e12)))
    ∧ thz_to_hz (.num .nan) = .error .invalidFrequency
    ∧ thz_to_hz .nonNum = .error .invalidFrequency
    ∧ (∀ v : PyVal, isOk (thz_to_hz v) = true ∨ v = .nonNum ∨ v = .num .nan) := by
  refine ⟨fun q => rfl, rfl, rfl, fun v => ?_⟩
  rcases v with f | _
  · rcases f with q | _ | _ | _
    · left; rfl
    · left; rfl
    · left; rfl
    · right; right; rfl
  · right; left; rfl

/-- C6: the clamp performed by generate_tone is idempotent on every
float value (NaN and the infinities included), and is the identity on the
audible band [18000, 22000]. -/
theorem C6_clamp_idempotent_and_identity_on_band :
    (∀ x : PyFloat, clampFreq (clampFreq x) = clampFreq x)
    ∧ (∀ q : ℚ, MIN_FREQUENCY_HZ ≤ q → q ≤ MAX_FREQUENCY_HZ → clampFreq (.finite q) = .finite q) := by
  have hlo : MIN_FREQUENCY_HZ ≤ MAX_FREQUENCY_HZ := by
    norm_num [MIN_FREQUENCY_HZ, MAX_FREQUENCY_HZ]
  refine ⟨?_, fun q h1 h2 => clamp_within h1 h2⟩
  intro x
  rcases x with q | _ | _ | _
  · rcases lt_or_le q MIN_FREQUENCY_HZ with hq | hq
    · rw [clamp_below hq, clamp_within le_rfl hlo]
    · rcases le_or_lt q MAX_FREQUENCY_HZ with hq2 | hq2
      · rw [clamp_within hq hq2, clamp_within hq hq2]
      · rw [clamp_above hq2, clamp_within hlo le_rfl]
  · rw [show clampFreq .inf = .finite MAX_FREQUENCY_HZ from rfl, clamp_within hlo le_rfl]
  · rw [show clampFreq .neginf = .finite MIN_FREQUENCY_HZ from rfl, clamp_within le_rfl hlo]
  · rfl

/-- C6 witness: 20000 lies in the band and the clamp leaves it unchanged. -/
theorem C6_witness : clampFreq (.finite 20000) = .finite 20000 :=
  C6_clamp_idempotent_and_identity_on_band.2 20000 (by decide) (by decide)

/-- C10: an infinite input passes the validation of thz_to_hz (only NaN
and non-numeric inputs are rejected): positive infinity maps to an
infinite Hz value that generate_tone clamps to the 22000 Hz ceiling, and
negative infinity to one clamped to the 18000 Hz floor. -/
theorem C10_infinities_pass_validation_and_clamp_to_band_edges :
    thz_to_hz (.num .inf) = .ok .inf
    ∧ thz_to_hz (.num .neginf) = .ok .neginf
    ∧ clampFreq .inf = .finite MAX_FREQUENCY_HZ
    ∧ clampFreq .neginf = .finite MIN_FREQUENCY_HZ
    ∧ (∀ synth : Synth, generate_tone synth .inf = synth (.finite MAX_FREQUENCY_HZ))
    ∧ (∀ synth : Synth, generate_tone synth .neginf = synth (.finite MIN_FREQUENCY_HZ)) :=
  ⟨rfl, rfl, rfl, rfl, fun _ => rfl, fun _ => rfl⟩

/-- C2: a frequency whose mapping or synthesis fails is skipped and the
remaining frequencies are still processed: running the batch on a list
with a failing item inserted gives exactly the batch on the list without
it.  add_frequencies is a total function of its inputs (the per-item
exception handler makes the Python loop total in the same way), so it
never propagates a per-item error. -/
theorem C2_failed_item_skipped_rest_still_processed (synth : Synth) (buf : List ℤ)
    (xs ys : List PyVal) (v : PyVal)
    (h : isOk (thz_to_hz v >>= generate_tone synth) = false) :
    add_frequencies synth buf (xs ++ v :: ys) = add_frequencies synth buf (xs ++ ys) := by
  unfold add_frequencies
  rw [List.foldl_append, List.foldl_append, List.foldl_cons]
  have hskip : ∀ B : List ℤ, processItem synth B v = B := by
    intro B
    unfold processItem
    rcases hres : thz_to_hz v >>= generate_tone synth with e | t
    · simp [hres]
    · rw [hres] at h
      simp [isOk] at h
  rw [hskip]

/-- C2 witness: a non-numeric item fails the mapper, is skipped, and the
frequencies after it are still mixed. -/
theorem C2_witness :
    isOk (thz_to_hz PyVal.nonNum >>= generate_tone synthZero) = false
    ∧ add_frequencies synthZero [0, 0] ([PyVal.num (.finite 1)] ++ PyVal.nonNum :: [PyVal.num (.finite 2)])
      = add_frequencies synthZero [0, 0] ([PyVal.num (.finite 1)] ++ [PyVal.num (.finite 2)]) :=
  ⟨rfl, C2_failed_item_skipped_rest_still_processed synthZero [0, 0]
    [PyVal.num (.finite 1)] [PyVal.num (.finite 2)] PyVal.nonNum rfl⟩

/-- An overlay always returns a buffer of the master's length (the tone
is truncated if longer, and the master's tail is kept if the tone is
shorter). -/
theorem overlay_length (master tone : List ℤ) :
    (overlay master tone).length = master.length := by
  simp only [overlay, List.length_append, List.length_zipWith, List.length_drop]
  omega

/-- One batch iteration never changes the accumulator's length. -/
theorem processItem_length (synth : Synth) (buf : List ℤ) (v : PyVal) :
    (processItem synth buf v).length = buf.length := by
  unfold processItem
  rcases hres : thz_to_hz v >>= generate_tone synth with t | e
  · simp [hres]
  · simp [hres, overlay_length]

/-- The batch never changes the accumulator's length. -/
theorem add_frequencies_length (synth : Synth) (vs : List PyVal) :
    ∀ buf : List ℤ, (add_frequencies synth buf vs).length = buf.length := by
  induction vs with
  | nil => intro buf; rfl
  | cons v vs ih =>
    intro buf
    simp only [add_frequencies, List.foldl_cons] at ih ⊢
    rw [ih (processItem synth buf v), processItem_length]

/-- C7: the MasterBuffer's sample count is invariant under the batch: for
every synthesizer and every input list, the buffer produced by
add_frequencies from the pre-allocated silence still has exactly
duration_seconds * sample_rate = 30 * 44100 = 1323000 samples. -/
theorem C7_master_sample_count_invariant (synth : Synth) (vs : List PyVal) :
    (add_frequencies synth masterInit vs).length = TOTAL_DURATION_SECONDS * SAMPLE_RATE
    ∧ TOTAL_DURATION_SECONDS * SAMPLE_RATE = 30 * 44100 := by
  constructor
  · rw [add_frequencies_length]
    simp [masterInit]
  · rfl

/-- The pre-allocated master has 1323000 samples. -/
theorem masterInit_length : masterInit.length = 1323000 := by
  rw [masterInit, List.length_replicate]
  rfl

/-- The pre-allocated master is 30000 ms long in pydub's length measure. -/
theorem pydubLenMs_masterInit : pydubLenMs masterInit.length = 30000 := by
  rw [masterInit_length]
  rfl

/-- C5 counterexample: exporting the MasterBuffer to which no frequencies
were added does NOT fail with EmptyAudioError — the buffer is
pre-allocated as 30 s of silence, so the zero-length guard in save_audio
never fires, the export proceeds, and (with a normally behaving encoder)
save_audio returns successfully, producing a silent artifact. -/
theorem C5_counterexample :
    add_frequencies synthZero masterInit [] = masterInit
    ∧ save_audio (add_frequencies synthZero masterInit [])
        { encodeRaises := false, fileWritten := true, fileSize := 4321 } = .ok 4321 := by
  refine ⟨rfl, ?_⟩
  have h0 : add_frequencies synthZero masterInit [] = masterInit := rfl
  rw [h0]
  simp [save_audio, pydubLenMs_masterInit]

/-- C5 amended: save_audio raises EmptyAudioError exactly when the
segment's millisecond length is zero; the buffer with no added
frequencies is the pre-allocated 30 s (30000 ms) silence, so its export
never raises EmptyAudioError. -/
theorem C5_amended_empty_guard_is_length_zero_only (buf : List ℤ) (env : ExportEnv) :
    pydubLenMs masterInit.length = 30000
    ∧ (∀ s : Synth, add_frequencies s masterInit [] = masterInit)
    ∧ (save_audio buf env = .error .emptyAudio ↔ pydubLenMs buf.length = 0) := by
  refine ⟨pydubLenMs_masterInit, fun s => rfl, ?_⟩
  unfold save_audio
  split_ifs <;> simp_all

/-- C5 witness: an actually empty segment (zero samples, hence zero ms)
does trigger the EmptyAudioError branch. -/
theorem C5_witness :
    save_audio [] { encodeRaises := false, fileWritten := true, fileSize := 0 }
      = .error .emptyAudio :=
  (C5_amended_empty_guard_is_length_zero_only []
    { encodeRaises := false, fileWritten := true, fileSize := 0 }).2.2.mpr (by decide)

/-- C8 counterexample: a run in which the encoder writes an EXISTING but
ZERO-BYTE artifact makes save_audio return successfully — the code checks
only os.path.exists and never the file size, contradicting the claimed
non-emptiness verification. -/
theorem C8_counterexample :
    save_audio masterInit { encodeRaises := false, fileWritten := true, fileSize := 0 }
      = .ok 0 := by
  simp [save_audio, pydubLenMs_masterInit]

/-- C8 amended: after encoding, save_audio verifies only that the
artifact exists: on a non-empty segment with a non-raising encoder, it
fails with the ExportVerificationError exactly when the file is missing,
and succeeds (whatever the file's size, zero included) when the file
exists. -/
theorem C8_amended_postwrite_check_is_existence_only (buf : List ℤ) (env : ExportEnv)
    (hne : pydubLenMs buf.length ≠ 0) (henc : env.encodeRaises = false) :
    (save_audio buf env = .error .exportVerification ↔ env.fileWritten = false)
    ∧ (env.fileWritten = true → save_audio buf env = .ok env.fileSize) := by
  unfold save_audio
  rw [if_neg hne, if_neg (by simp [henc])]
  constructor
  · by_cases hw : env.fileWritten = true <;> simp [hw]
  · intro hw
    simp [hw]

/-- C8 witness: with a 23-sample (1 ms) buffer, a missing file yields the
verification error and an existing file yields success. -/
theorem C8_witness :
    save_audio (List.replicate 23 0) { encodeRaises := false, fileWritten := false, fileSize := 5 }
      = .error .exportVerification
    ∧ save_audio (List.replicate 23 0) { encodeRaises := false, fileWritten := true, fileSize := 5 }
      = .ok 5 :=
  ⟨(C8_amended_postwrite_check_is_existence_only (List.replicate 23 0)
      { encodeRaises := false, fileWritten := false, fileSize := 5 } (by decide) rfl).1.mpr rfl,
   (C8_amended_postwrite_check_is_existence_only (List.replicate 23 0)
      { encodeRaises := false, fileWritten := true, fileSize := 5 } (by decide) rfl).2 rfl⟩

/-- C9 counterexample: the overlay the code performs (pydub / audioop
saturating 16-bit addition) differs from the spec's higher-precision
non-clipping accumulation already on a single sample: a partial sum of
31000 + 10000 = 41000 is saturated to 32767 during accumulation, not at
export time. -/
theorem C9_counterexample :
    overlay [31000] [10000] = [32767]
    ∧ overlaySpec [31000] [10000] = [41000]
    ∧ overlay [31000] [10000] ≠ overlaySpec [31000] [10000] := by
  decide

/-- C9 amended: each overlay performs sample-wise SATURATING 16-bit
addition: every overlapping output sample is clamp16(master[i] + tone[i]),
so partial sums are clipped to [-32768, 32767] at every accumulation step
rather than once at export. -/
theorem C9_amended_overlay_is_saturating_16bit_addition (a b : List ℤ) (i : ℕ)
    (h1 : i < a.length) (h2 : i < b.length) :
    (overlay a b)[i]? = some (clamp16 (a[i] + b[i])) := by
  have hz : i < (List.zipWith (fun x y => clamp16 (x + y)) a b).length := by
    simp only [List.length_zipWith]
    omega
  unfold overlay
  rw [List.getElem?_append_left hz, List.getElem?_eq_getElem hz, List.getElem_zipWith]

/-- C9 witness: the first sample of an overlay of concrete buffers is the
saturated sum of the first samples. -/
theorem C9_witness :
    (overlay [31000, 5] [10000])[0]? = some (clamp16 (31000 + 10000)) :=
  C9_amended_overlay_is_saturating_16bit_addition [31000, 5] [10000] 0 (by decide) (by decide)

/-- Reflexivity of the float comparison on non-NaN values. -/
theorem leb_refl_nonnan {a : PyFloat} (h : a.isNanb = false) : a.leb a = true := by
  rcases a with q | _ | _ | _ <;> simp_all [PyFloat.leb, PyFloat.isNanb]

/-- Transitivity of the float comparison. -/
theorem leb_trans {a b c : PyFloat} (h1 : a.leb b = true) (h2 : b.leb c = true) :
    a.leb c = true := by
  rcases a with p | _ | _ | _ <;> rcases b with q | _ | _ | _ <;> rcases c with r | _ | _ | _ <;>
    simp_all [PyFloat.leb]
  all_goals linarith

/-- A true strict float comparison implies the weak one. -/
theorem leb_of_ltb {a b : PyFloat} (h : a.ltb b = true) : a.leb b = true := by
  rcases a with p | _ | _ | _ <;> rcases b with q | _ | _ | _ <;>
    simp_all [PyFloat.ltb, PyFloat.leb]
  all_goals linarith

/-- A failed strict float comparison yields the reversed weak one on
non-NaN values. -/
theorem leb_of_not_ltb {a b : PyFloat} (ha : a.isNanb = false) (hb : b.isNanb = false)
    (h : b.ltb a = false) : a.leb b = true := by
  rcases a with p | _ | _ | _ <;> rcases b with q | _ | _ | _ <;>
    simp_all [PyFloat.ltb, PyFloat.leb, PyFloat.isNanb]

/-- On non-NaN arguments, the numpy pairwise minimum is one of them. -/
theorem npMinimum_eq_or {a b : PyFloat} (ha : a.isNanb = false) (hb : b.isNanb = false) :
    npMinimum a b = a ∨ npMinimum a b = b := by
  unfold npMinimum
  rw [ha, hb]
  by_cases hlt : b.ltb a = true <;> simp [hlt]

/-- The numpy pairwise minimum is below its left argument. -/
theorem npMinimum_leb_left {a b : PyFloat} (ha : a.isNanb = false) (hb : b.isNanb = false) :
    (npMinimum a b).leb a = true := by
  unfold npMinimum
  rw [ha, hb]
  by_cases hlt : b.ltb a = true
  · simpa [hlt] using leb_of_ltb hlt
  · simpa [hlt] using leb_refl_nonnan ha

/-- The numpy pairwise minimum is below its right argument. -/
theorem npMinimum_leb_right {a b : PyFloat} (ha : a.isNanb = false) (hb : b.isNanb = false) :
    (npMinimum a b).leb b = true := by
  unfold npMinimum
  rw [ha, hb]
  by_cases hlt : b.ltb a = true
  · simpa [hlt] using leb_refl_nonnan hb
  · simpa [hlt] using leb_of_not_ltb ha hb (by simpa using hlt)

/-- Non-NaN-ness is preserved by the numpy pairwise minimum. -/
theorem npMinimum_nonnan {a b : PyFloat} (ha : a.isNanb = false) (hb : b.isNanb = false) :
    (npMinimum a b).isNanb = false := by
  rcases npMinimum_eq_or ha hb with h | h <;> rw [h] <;> assumption

/-- On non-NaN arguments, the numpy pairwise maximum is one of them. -/
theorem npMaximum_eq_or {a b : PyFloat} (ha : a.isNanb = false) (hb : b.isNanb = false) :
    npMaximum a b = a ∨ npMaximum a b = b := by
  unfold npMaximum
  rw [ha, hb]
  by_cases hlt : a.ltb b = true <;> simp [hlt]

/-- The numpy pairwise maximum is above its left argument. -/
theorem npMaximum_leb_left {a b : PyFloat} (ha : a.isNanb = false) (hb : b.isNanb = false) :
    a.leb (npMaximum a b) = true := by
  unfold npMaximum
  rw [ha, hb]
  by_cases hlt : a.ltb b = true
  · simpa [hlt] using leb_of_ltb hlt
  · simpa [hlt] using leb_refl_nonnan ha

/-- The numpy pairwise maximum is above its right argument. -/
theorem npMaximum_leb_right {a b : PyFloat} (ha : a.isNanb = false) (hb : b.isNanb = false) :
    b.leb (npMaximum a b) = true := by
  unfold npMaximum
  rw [ha, hb]
  by_cases hlt : a.ltb b = true
  · simpa [hlt] using leb_refl_nonnan hb
  · simpa [hlt] using leb_of_not_ltb hb ha (by simpa using hlt)

/-- Non-NaN-ness is preserved by the numpy pairwise maximum. -/
theorem npMaximum_nonnan {a b : PyFloat} (ha : a.isNanb = false) (hb : b.isNanb = false) :
    (npMaximum a b).isNanb = false := by
  rcases npMaximum_eq_or ha hb with h | h <;> rw [h] <;> assumption

/-- The numpy min reduction over a NaN-free non-empty list returns a
member of the list that is a lower bound of it. -/
theorem foldl_npMinimum_spec (xs : List PyFloat) : ∀ x : PyFloat,
    (∀ y ∈ x :: xs, y.isNanb = false) →
    xs.foldl npMinimum x ∈ x :: xs
      ∧ ∀ y ∈ x :: xs, (xs.foldl npMinimum x).leb y = true := by
  induction xs with
  | nil =>
    intro x h
    refine ⟨by simp, ?_⟩
    intro y hy
    rw [List.mem_singleton] at hy
    subst hy
    simpa using leb_refl_nonnan (h y (by simp))
  | cons b xs ih =>
    intro x h
    have hx : x.isNanb = false := h x (by simp)
    have hb : b.isNanb = false := h b (by simp)
    have hxb : (npMinimum x b).isNanb = false := npMinimum_nonnan hx hb
    have hrest : ∀ y ∈ npMinimum x b :: xs, y.isNanb = false := by
      intro y hy
      rcases List.mem_cons.1 hy with rfl | hy2
      · exact hxb
      · exact h y (by simp [hy2])
    obtain ⟨hmem, hle⟩ := ih (npMinimum x b) hrest
    simp only [List.foldl_cons]
    constructor
    · rcases List.mem_cons.1 hmem with heq | hmem2
      · rcases npMinimum_eq_or hx hb with h2 | h2
        · rw [heq, h2]
          simp
        · rw [heq, h2]
          simp
      · simp [hmem2]
    · intro y hy
      rcases List.mem_cons.1 hy with rfl | hy2
      · exact leb_trans (hle _ (by simp)) (npMinimum_leb_left hx hb)
      · rcases List.mem_cons.1 hy2 with rfl | hy3
        · exact leb_trans (hle _ (by simp)) (npMinimum_leb_right hx hb)
        · exact hle y (by simp [hy3])

/-- The numpy max reduction over a NaN-free non-empty list returns a
member of the list that is an upper bound of it. -/
theorem foldl_npMaximum_spec (xs : List PyFloat) : ∀ x : PyFloat,
    (∀ y ∈ x :: xs, y.isNanb = false) →
    xs.foldl npMaximum x ∈ x :: xs
      ∧ ∀ y ∈ x :: xs, y.leb (xs.foldl npMaximum x) = true := by
  induction xs with
  | nil =>
    intro x h
    refine ⟨by simp, ?_⟩
    intro y hy
    rw [List.mem_singleton] at hy
    subst hy
    simpa using leb_refl_nonnan (h y (by simp))
  | cons b xs ih =>
    intro x h
    have hx : x.isNanb = false := h x (by simp)
    have hb : b.isNanb = false := h b (by simp)
    have hxb : (npMaximum x b).isNanb = false := npMaximum_nonnan hx hb
    have hrest : ∀ y ∈ npMaximum x b :: xs, y.isNanb = false := by
      intro y hy
      rcases List.mem_cons.1 hy with rfl | hy2
      · exact hxb
      · exact h y (by simp [hy2])
    obtain ⟨hmem, hle⟩ := ih (npMaximum x b) hrest
    simp only [List.foldl_cons]
    constructor
    · rcases List.mem_cons.1 hmem with heq | hmem2
      · rcases npMaximum_eq_or hx hb with h2 | h2
        · rw [heq, h2]
          simp
        · rw [heq, h2]
          simp
      · simp [hmem2]
    · intro y hy
      rcases List.mem_cons.1 hy with rfl | hy2
      · exact leb_trans (npMaximum_leb_left hx hb) (hle _ (by simp))
      · rcases List.mem_cons.1 hy2 with rfl | hy3
        · exact leb_trans (npMaximum_leb_right hx hb) (hle _ (by simp))
        · exact hle y (by simp [hy3])

/-- C4: the SynthesisResult statistics are derived from the original
loaded input list, not from clamped or synthesized values: for every
synthesizer (hence whatever items the batch skipped) and every non-empty
NaN-free loaded list, frequency_count equals the list's length, and
frequency_min / frequency_max are the minimum / maximum of the original
input values (a member of the list bounding it below / above). -/
theorem C4_stats_from_original_inputs (synth : Synth) (x : PyFloat) (xs : List PyFloat)
    (hnn : ∀ y ∈ x :: xs, y.isNanb = false) :
    ((mainRun synth (x :: xs)).2).isSome = true
    ∧ (((mainRun synth (x :: xs)).2).getD ⟨0, .nan, .nan⟩).frequency_count = (x :: xs).length
    ∧ (((mainRun synth (x :: xs)).2).getD ⟨0, .nan, .nan⟩).frequency_min ∈ x :: xs
    ∧ (∀ y ∈ x :: xs,
        ((((mainRun synth (x :: xs)).2).getD ⟨0, .nan, .nan⟩).frequency_min).leb y = true)
    ∧ (((mainRun synth (x :: xs)).2).getD ⟨0, .nan, .nan⟩).frequency_max ∈ x :: xs
    ∧ (∀ y ∈ x :: xs,
        y.leb ((((mainRun synth (x :: xs)).2).getD ⟨0, .nan, .nan⟩).frequency_max) = true) := by
  have h2 : (mainRun synth (x :: xs)).2
      = some ⟨(x :: xs).length, xs.foldl npMinimum x, xs.foldl npMaximum x⟩ := rfl
  rw [h2]
  simp only [Option.isSome_some, Option.getD_some]
  obtain ⟨hminmem, hminle⟩ := foldl_npMinimum_spec xs x hnn
  obtain ⟨hmaxmem, hmaxle⟩ := foldl_npMaximum_spec xs x hnn
  exact ⟨trivial, trivial, hminmem, hminle, hmaxmem, hmaxle⟩

/-- C4 witness: a concrete run with loaded list [3, 1, 2] THz, whatever
the synthesizer did. -/
theorem C4_witness :
    ((mainRun synthZero [PyFloat.finite 3, PyFloat.finite 1, PyFloat.finite 2]).2).isSome = true
    ∧ (((mainRun synthZero [PyFloat.finite 3, PyFloat.finite 1, PyFloat.finite 2]).2).getD
        ⟨0, .nan, .nan⟩).frequency_count
      = ([PyFloat.finite 3, PyFloat.finite 1, PyFloat.finite 2]).length
    ∧ (((mainRun synthZero [PyFloat.finite 3, PyFloat.finite 1, PyFloat.finite 2]).2).getD
        ⟨0, .nan, .nan⟩).frequency_min ∈ [PyFloat.finite 3, PyFloat.finite 1, PyFloat.finite 2]
    ∧ (∀ y ∈ [PyFloat.finite 3, PyFloat.finite 1, PyFloat.finite 2],
        ((((mainRun synthZero [PyFloat.finite 3, PyFloat.finite 1, PyFloat.finite 2]).2).getD
          ⟨0, .nan, .nan⟩).frequency_min).leb y = true)
    ∧ (((mainRun synthZero [PyFloat.finite 3, PyFloat.finite 1, PyFloat.finite 2]).2).getD
        ⟨0, .nan, .nan⟩).frequency_max ∈ [PyFloat.finite 3, PyFloat.finite 1, PyFloat.finite 2]
    ∧ (∀ y ∈ [PyFloat.finite 3, PyFloat.finite 1, PyFloat.finite 2],
        y.leb ((((mainRun synthZero [PyFloat.finite 3, PyFloat.finite 1, PyFloat.finite 2]).2).getD
          ⟨0, .nan, .nan⟩).frequency_max) = true) :=
  C4_stats_from_original_inputs synthZero (PyFloat.finite 3)
    [PyFloat.finite 1, PyFloat.finite 2] (by decide)

/-- The 16-bit saturation is the identity on in-range values. -/
theorem clamp16_of_abs_le {x : ℤ} (h : |x| ≤ 32767) : clamp16 x = x := by
  rw [abs_le] at h
  unfold clamp16
  rw [max_eq_left (by linarith), min_eq_left h.2]

/-- Exact sample-wise addition of tone buffers is left-commutative. -/
theorem zipWithAdd_left_comm (b t1 t2 : List ℤ) :
    List.zipWith (fun x y => x + y) (List.zipWith (fun x y => x + y) b t1) t2
      = List.zipWith (fun x y => x + y) (List.zipWith (fun x y => x + y) b t2) t1 := by
  induction b generalizing t1 t2 with
  | nil => simp
  | cons x bs ih =>
    cases t1 with
    | nil => simp
    | cons y t1s =>
      cases t2 with
      | nil => simp
      | cons z t2s =>
        simp only [List.zipWith_cons_cons]
        congr 1
        · omega
        · exact ih t1s t2s

/-- When the accumulator is bounded by B and the tone by 32767 - B, the
saturating addition agrees with the exact one. -/
theorem zipWith_clampAdd_eq (B : ℤ) : ∀ b t : List ℤ,
    (∀ s ∈ b, |s| ≤ B) → (∀ s ∈ t, |s| ≤ 32767 - B) →
    List.zipWith (fun x y => clamp16 (x + y)) b t
      = List.zipWith (fun x y => x + y) b t := by
  intro b
  induction b with
  | nil => intro t _ _; simp
  | cons x bs ih =>
    intro t hb ht
    cases t with
    | nil => simp
    | cons y ts =>
      simp only [List.zipWith_cons_cons]
      congr 1
      · apply clamp16_of_abs_le
        have h1 : |x| ≤ B := hb x (by simp)
        have h2 : |y| ≤ 32767 - B := ht y (by simp)
        calc |x + y| ≤ |x| + |y| := abs_add x y
        _ ≤ 32767 := by linarith
      · exact ih ts (fun s hs => hb s (by simp [hs])) (fun s hs => ht s (by simp [hs]))

/-- Sample bounds add up under exact sample-wise addition. -/
theorem zipWithAdd_bound (B A : ℤ) : ∀ b t : List ℤ,
    (∀ s ∈ b, |s| ≤ B) → (∀ s ∈ t, |s| ≤ A) →
    ∀ s ∈ List.zipWith (fun x y => x + y) b t, |s| ≤ B + A := by
  intro b
  induction b with
  | nil => intro t _ _ s hs; simp at hs
  | cons x bs ih =>
    intro t hb ht s hs
    cases t with
    | nil => simp at hs
    | cons y ts =>
      simp only [List.zipWith_cons_cons, List.mem_cons] at hs
      rcases hs with rfl | hs
      · have h1 : |x| ≤ B := hb x (by simp)
        have h2 : |y| ≤ A := ht y (by simp)
        calc |x + y| ≤ |x| + |y| := abs_add x y
        _ ≤ B + A := by linarith
      · exact ih ts (fun s2 hs2 => hb s2 (by simp [hs2]))
          (fun s2 hs2 => ht s2 (by simp [hs2])) s hs

/-- The batch step the spec describes: identical to processItem except
that the tone is accumulated with exact (non-saturating) addition.  Used
to characterise when the code's saturating step agrees with it. -/
def processItemSpec (synth : Synth) (buf : List ℤ) (v : PyVal) : List ℤ :=
  match thz_to_hz v >>= generate_tone synth with
  | .ok tone => List.zipWith (fun x y => x + y) buf tone
  | .error _ => buf

/-- The exact accumulation step is left-commutative. -/
theorem processItemSpec_comm (synth : Synth) (b : List ℤ) (v1 v2 : PyVal) :
    processItemSpec synth (processItemSpec synth b v1) v2
      = processItemSpec synth (processItemSpec synth b v2) v1 := by
  unfold processItemSpec
  rcases h1 : thz_to_hz v1 >>= generate_tone synth with e1 | t1 <;>
    rcases h2 : thz_to_hz v2 >>= generate_tone synth with e2 | t2 <;>
    simp only [h1, h2]
  all_goals first
  | rfl
  | exact zipWithAdd_left_comm _ _ _

/-- As long as no accumulation step can saturate (tones of the master's
length with samples bounded by A, and enough head-room for the whole
list), the code's batch coincides with the exact, non-saturating one. -/
theorem add_frequencies_eq_spec (synth : Synth) (N : ℕ) (A : ℤ)
    (hA : 0 ≤ A)
    (hTone : ∀ f t, synth f = .ok t → t.length = N ∧ ∀ s ∈ t, |s| ≤ A) :
    ∀ (vs : List PyVal) (buf : List ℤ) (B : ℤ),
    buf.length = N → (∀ s ∈ buf, |s| ≤ B) →
    B + (vs.length : ℤ) * A ≤ 32767 →
    add_frequencies synth buf vs = vs.foldl (processItemSpec synth) buf := by
  intro vs
  induction vs with
  | nil => intro buf B _ _ _; rfl
  | cons v vs ih =>
    intro buf B hlen hbuf hsat
    have hcast : ((v :: vs).length : ℤ) = (vs.length : ℤ) + 1 := by
      rw [List.length_cons]
      push_cast
      ring
    rw [hcast] at hsat
    have hexp : ((vs.length : ℤ) + 1) * A = (vs.length : ℤ) * A + A := by ring
    have hprod : 0 ≤ (vs.length : ℤ) * A := mul_nonneg (Int.natCast_nonneg vs.length) hA
    rcases hres : thz_to_hz v >>= generate_tone synth with e | t
    · have h1 : processItem synth buf v = buf := by
        unfold processItem
        rw [hres]
      have h2 : processItemSpec synth buf v = buf := by
        unfold processItemSpec
        rw [hres]
      simp only [add_frequencies, List.foldl_cons] at ih ⊢
      rw [h1, h2]
      exact ih buf B hlen hbuf (by linarith)
    · have hsynth : ∃ hz, synth (clampFreq hz) = .ok t := by
        rcases hthz : thz_to_hz v with e0 | hz
        · rw [hthz] at hres
          have hred : (Except.error e0 : Except AudioError PyFloat) >>= generate_tone synth
              = (.error e0 : Except AudioError (List ℤ)) := rfl
          rw [hred] at hres
          simp at hres
        · rw [hthz] at hres
          exact ⟨hz, hres⟩
      obtain ⟨hz, hsyn⟩ := hsynth
      obtain ⟨htl, htb⟩ := hTone _ _ hsyn
      have h1 : processItem synth buf v = overlay buf t := by
        unfold processItem
        rw [hres]
      have h2 : processItemSpec synth buf v = List.zipWith (fun x y => x + y) buf t := by
        unfold processItemSpec
        rw [hres]
      have hAB : B + A ≤ 32767 := by linarith
      have hov : overlay buf t = List.zipWith (fun x y => x + y) buf t := by
        unfold overlay
        have hlen2 : t.length = buf.length := by rw [htl, hlen]
        rw [hlen2, List.drop_length, List.append_nil]
        exact zipWith_clampAdd_eq B buf t hbuf (fun s hs => le_trans (htb s hs) (by linarith))
      have hbuf2 : ∀ s ∈ List.zipWith (fun x y => x + y) buf t, |s| ≤ B + A :=
        zipWithAdd_bound B A buf t hbuf htb
      have hlen3 : (List.zipWith (fun x y => x + y) buf t).length = N := by
        simp [List.length_zipWith, hlen, htl]
      simp only [add_frequencies, List.foldl_cons] at ih ⊢
      rw [h1, h2, hov]
      exact ih _ (B + A) hlen3 hbuf2 (by linarith)

/-- A concrete synthesizer exhibiting the order-dependence of the
saturating overlay.  Its one-sample tones (+10000 for every band
frequency except 20000 Hz, -10000 there) stay within the -10 dB peak
amplitude of about 10362 that real tones reach. -/
def synthCx : Synth := fun f => if f = .finite 20000 then .ok [-10000] else .ok [10000]

/-- C3 counterexample: the MasterBuffer depends on the input order.  The
five THz inputs map (after conversion and clamping) to the band
frequencies 18000, 19000, 21000, 22000 and 20000 Hz.  Processing the
frequency with the negative tone last saturates an intermediate sum
(40000 is clipped to 32767) and yields first sample 22767, while
processing it first avoids saturation and yields 30000 — far beyond any
floating-point tolerance. -/
theorem C3_counterexample :
    ([PyVal.num (.finite (18000 / 10 ^ 12)), PyVal.num (.finite (19000 / 10 ^ 12)),
      PyVal.num (.finite (21000 / 10 ^ 12)), PyVal.num (.finite 1),
      PyVal.num (.finite (20000 / 10 ^ 12))] : List PyVal).Perm
      [PyVal.num (.finite (20000 / 10 ^ 12)), PyVal.num (.finite (18000 / 10 ^ 12)),
       PyVal.num (.finite (19000 / 10 ^ 12)), PyVal.num (.finite (21000 / 10 ^ 12)),
       PyVal.num (.finite 1)]
    ∧ add_frequencies synthCx masterInit
        [PyVal.num (.finite (18000 / 10 ^ 12)), PyVal.num (.finite (19000 / 10 ^ 12)),
         PyVal.num (.finite (21000 / 10 ^ 12)), PyVal.num (.finite 1),
         PyVal.num (.finite (20000 / 10 ^ 12))]
      ≠ add_frequencies synthCx masterInit
        [PyVal.num (.finite (20000 / 10 ^ 12)), PyVal.num (.finite (18000 / 10 ^ 12)),
         PyVal.num (.finite (19000 / 10 ^ 12)), PyVal.num (.finite (21000 / 10 ^ 12)),
         PyVal.num (.finite 1)] := by
  have hM : masterInit = 0 :: List.replicate 1322999 0 := by
    rw [masterInit, show TOTAL_DURATION_SECONDS * SAMPLE_RATE = 1322999 + 1 from rfl,
      List.replicate_succ]
  have hov : ∀ (x t : ℤ) (R : List ℤ), overlay (x :: R) [t] = clamp16 (x + t) :: R := by
    intro x t R
    simp [overlay]
  have item : ∀ (q : ℚ) (t : List ℤ),
      synthCx (clampFreq (.finite (q * e12))) = .ok t →
      ∀ B : List ℤ, processItem synthCx B (PyVal.num (.finite q)) = overlay B t := by
    intro q t h B
    unfold processItem
    have hb : (thz_to_hz (PyVal.num (.finite q)) >>= generate_tone synthCx) = .ok t := h
    rw [hb]
  have hband : ∀ q : ℚ, MIN_FREQUENCY_HZ ≤ q → q ≤ MAX_FREQUENCY_HZ → q ≠ 20000 →
      synthCx (clampFreq (.finite q)) = .ok [10000] := by
    intro q hq1 hq2 hq3
    rw [clamp_within hq1 hq2]
    show (if PyFloat.finite q = .finite 20000 then (.ok [-10000] : Except AudioError (List ℤ))
      else .ok [10000]) = .ok [10000]
    rw [if_neg]
    intro hc
    injection hc with hc2
    exact hq3 hc2
  have s18 : synthCx (clampFreq (.finite ((18000 / 10 ^ 12 : ℚ) * e12))) = .ok [10000] := by
    rw [show ((18000 / 10 ^ 12 : ℚ) * e12) = 18000 from by norm_num [e12]]
    exact hband 18000 (by norm_num [MIN_FREQUENCY_HZ]) (by norm_num [MAX_FREQUENCY_HZ])
      (by norm_num)
  have s19 : synthCx (clampFreq (.finite ((19000 / 10 ^ 12 : ℚ) * e12))) = .ok [10000] := by
    rw [show ((19000 / 10 ^ 12 : ℚ) * e12) = 19000 from by norm_num [e12]]
    exact hband 19000 (by norm_num [MIN_FREQUENCY_HZ]) (by norm_num [MAX_FREQUENCY_HZ])
      (by norm_num)
  have s21 : synthCx (clampFreq (.finite ((21000 / 10 ^ 12 : ℚ) * e12))) = .ok [10000] := by
    rw [show ((21000 / 10 ^ 12 : ℚ) * e12) = 21000 from by norm_num [e12]]
    exact hband 21000 (by norm_num [MIN_FREQUENCY_HZ]) (by norm_num [MAX_FREQUENCY_HZ])
      (by norm_num)
  have s22 : synthCx (clampFreq (.finite ((1 : ℚ) * e12))) = .ok [10000] := by
    rw [show ((1 : ℚ) * e12) = 10 ^ 12 from by norm_num [e12],
      clamp_above (by norm_num [MAX_FREQUENCY_HZ])]
    show (if PyFloat.finite MAX_FREQUENCY_HZ = .finite 20000
      then (.ok [-10000] : Except AudioError (List ℤ)) else .ok [10000]) = .ok [10000]
    rw [if_neg]
    intro hc
    injection hc with hc2
    norm_num [MAX_FREQUENCY_HZ] at hc2
  have s20 : synthCx (clampFreq (.finite ((20000 / 10 ^ 12 : ℚ) * e12))) = .ok [-10000] := by
    rw [show ((20000 / 10 ^ 12 : ℚ) * e12) = 20000 from by norm_num [e12],
      clamp_within (by norm_num [MIN_FREQUENCY_HZ]) (by norm_num [MAX_FREQUENCY_HZ])]
    show (if PyFloat.finite 20000 = .finite 20000 then (.ok [-10000] : Except AudioError (List ℤ))
      else .ok [10000]) = .ok [-10000]
    rw [if_pos rfl]
  constructor
  · simpa using List.perm_append_singleton (PyVal.num (.finite (20000 / 10 ^ 12)))
      [PyVal.num (.finite (18000 / 10 ^ 12)), PyVal.num (.finite (19000 / 10 ^ 12)),
       PyVal.num (.finite (21000 / 10 ^ 12)), PyVal.num (.finite 1)]
  · intro h
    have h1 : add_frequencies synthCx masterInit
        [PyVal.num (.finite (18000 / 10 ^ 12)), PyVal.num (.finite (19000 / 10 ^ 12)),
         PyVal.num (.finite (21000 / 10 ^ 12)), PyVal.num (.finite 1),
         PyVal.num (.finite (20000 / 10 ^ 12))]
        = 22767 :: List.replicate 1322999 0 := by
      simp only [add_frequencies, List.foldl_cons, List.foldl_nil]
      rw [item _ _ s18, hM, hov, show clamp16 (0 + 10000) = (10000 : ℤ) from by decide,
        item _ _ s19, hov, show clamp16 (10000 + 10000) = (20000 : ℤ) from by decide,
        item _ _ s21, hov, show clamp16 (20000 + 10000) = (30000 : ℤ) from by decide,
        item _ _ s22, hov, show clamp16 (30000 + 10000) = (32767 : ℤ) from by decide,
        item _ _ s20, hov, show clamp16 (32767 + -10000) = (22767 : ℤ) from by decide]
    have h2 : add_frequencies synthCx masterInit
        [PyVal.num (.finite (20000 / 10 ^ 12)), PyVal.num (.finite (18000 / 10 ^ 12)),
         PyVal.num (.finite (19000 / 10 ^ 12)), PyVal.num (.finite (21000 / 10 ^ 12)),
         PyVal.num (.finite 1)]
        = 30000 :: List.replicate 1322999 0 := by
      simp only [add_frequencies, List.foldl_cons, List.foldl_nil]
      rw [item _ _ s20, hM, hov, show clamp16 (0 + -10000) = (-10000 : ℤ) from by decide,
        item _ _ s18, hov, show clamp16 (-10000 + 10000) = (0 : ℤ) from by decide,
        item _ _ s19, hov, show clamp16 (0 + 10000) = (10000 : ℤ) from by decide,
        item _ _ s21, hov, show clamp16 (10000 + 10000) = (20000 : ℤ) from by decide,
        item _ _ s22, hov, show clamp16 (20000 + 10000) = (30000 : ℤ) from by decide]
    rw [h1, h2] at h
    injection h with h3 h4
    exact absurd h3 (by decide)

/-- C3 amended: the mix is order-independent only in the absence of
saturation.  Whenever every tone the synthesizer returns has the master's
length and samples bounded by A, with enough head-room for the whole list
(list length times A at most 32767, so that no accumulated sample can
leave the 16-bit range), add_frequencies produces exactly the same
MasterBuffer on any permutation of the input.  With saturation the result
is order-dependent (see the counterexample). -/
theorem C3_amended_commutative_without_saturation (synth : Synth) (A : ℤ)
    (hA : 0 ≤ A)
    (hTone : ∀ f t, synth f = .ok t → t.length = masterInit.length ∧ ∀ s ∈ t, |s| ≤ A)
    (vs1 vs2 : List PyVal) (hp : vs1.Perm vs2)
    (hNoSat : (vs1.length : ℤ) * A ≤ 32767) :
    add_frequencies synth masterInit vs1 = add_frequencies synth masterInit vs2 := by
  have hm0 : ∀ s ∈ masterInit, |s| ≤ (0 : ℤ) := by
    intro s hs
    rw [masterInit, List.mem_replicate] at hs
    simp [hs.2]
  have e1 := add_frequencies_eq_spec synth masterInit.length A hA hTone vs1 masterInit 0
    rfl hm0 (by simpa using hNoSat)
  have e2 := add_frequencies_eq_spec synth masterInit.length A hA hTone vs2 masterInit 0
    rfl hm0 (by rw [← hp.length_eq]; simpa using hNoSat)
  rw [e1, e2]
  exact hp.foldl_eq' (fun x _ y _ z => processItemSpec_comm synth z x y) masterInit

/-- A synthesizer producing full-length silent tones, used to instantiate
the no-saturation hypothesis concretely. -/
def synthSilent : Synth := fun _ => .ok masterInit

/-- C3 witness: with full-length tones bounded by 0 nothing can saturate,
and swapping two frequencies leaves the MasterBuffer unchanged. -/
theorem C3_witness :
    add_frequencies synthSilent masterInit
        [PyVal.num (.finite 1), PyVal.num (.finite 2)]
      = add_frequencies synthSilent masterInit
        [PyVal.num (.finite 2), PyVal.num (.finite 1)] :=
  C3_amended_commutative_without_saturation synthSilent 0 le_rfl
    (fun f t h => by
      have h1 : (Except.ok masterInit : Except AudioError (List ℤ)) = .ok t := h
      injection h1 with h2
      subst h2
      refine ⟨rfl, ?_⟩
      intro s hs
      rw [masterInit, List.mem_replicate] at hs
      simp [hs.2])
    [PyVal.num (.finite 1), PyVal.num (.finite 2)]
    [PyVal.num (.finite 2), PyVal.num (.finite 1)]
    (List.Perm.swap (PyVal.num (.finite 2)) (PyVal.num (.finite 1)) [])
    (by decide)

end NeuroAudio
